import Mathlib

/-!
Shallow embedding of the rating inference engine of `rating_inference.py`
(plex-rating-utils).  Ratings live on the 0-10 scale and are modelled as
rationals; the Python value `None` for a rating is encoded as `0`, exactly as
the source does with `item.userRating or 0.0`.  The persisted inference
registry (`state` in the source, backed by `plex_state.json`) is modelled as an
association list from rating keys to records `{r, t}`.  I/O-only behaviour
(progress bars, cooldown sleeps, periodic `save_state`, sorting and the
start-letter filter, which is vacuous for an empty `start_char`) has no
observable effect on ratings or state and is not embedded.
-/

/-- A persisted state record: `{'r': rating, 't': flag}` where the flag is
`0` = plain-inferred, `1` = twin-inferred-consensus, `2` = twin-manual-anchor. -/
structure StateRec where
  r : ℚ
  t : ℕ
deriving DecidableEq

/-- The in-memory `state` dictionary keyed by `ratingKey`. -/
def StateMap := List (ℕ × StateRec)

instance : DecidableEq StateMap := by unfold StateMap; infer_instance

/-- Dictionary lookup, `state.get(key)`. -/
def lookupState : StateMap → ℕ → Option StateRec
  | [], _ => none
  | (k, v) :: rest, k0 => if k0 = k then some v else lookupState rest k0

/-- Dictionary deletion, `del state[key]`. -/
def eraseState : StateMap → ℕ → StateMap
  | [], _ => []
  | (k, v) :: rest, k0 => if k = k0 then eraseState rest k0 else (k, v) :: eraseState rest k0

/-- Dictionary upsert, `state[key] = rec`. -/
def insertState (st : StateMap) (k : ℕ) (v : StateRec) : StateMap :=
  (k, v) :: eraseState st k

theorem lookup_eraseState (st : StateMap) (k k0 : ℕ) :
    lookupState (eraseState st k) k0 = if k0 = k then none else lookupState st k0 := by
  induction st with
  | nil => simp [eraseState, lookupState]
  | cons hd rest ih =>
    obtain ⟨k1, v1⟩ := hd
    simp only [eraseState]
    by_cases h1 : k1 = k
    · subst h1
      rw [if_pos rfl, ih]
      by_cases h0 : k0 = k1 <;> simp [lookupState, h0]
    · rw [if_neg h1]
      by_cases h0 : k0 = k1
      · subst h0
        simp [lookupState, h1]
      · simp [lookupState, h0, ih]

theorem lookup_insertState (st : StateMap) (k k0 : ℕ) (v : StateRec) :
    lookupState (insertState st k v) k0 = if k0 = k then some v else lookupState st k0 := by
  by_cases h : k0 = k
  · simp [insertState, lookupState, h]
  · simp [insertState, lookupState, h, lookup_eraseState]

deriving instance DecidableEq for Except

/-! ## Upward exclusion rules (`is_excluded_from_averages`) -/

/-- Substring test, Python's `keyword in title` on character lists:
`startsWithChars a b` is `a` being an initial segment of `b`. -/
def startsWithChars : List Char → List Char → Bool
  | [], _ => true
  | _ :: _, [] => false
  | a :: as, b :: bs => a == b && startsWithChars as bs

/-- Python `sub in text` (contiguous substring, the empty string matches). -/
def subMatch (sub : List Char) : List Char → Bool
  | [] => sub.isEmpty
  | c :: rest => startsWithChars sub (c :: rest) || subMatch sub rest

/-- The `UPWARD_EXCLUSION_RULES` configuration block. -/
structure ExclusionRules where
  enabled : Bool
  minDurationSec : ℕ
  keywords : List String
  caseSensitive : Bool
deriving DecidableEq

/-- A child item as seen by an upward pass (a track under an album, or an
album under an artist).  `userRating` is `item.userRating or 0.0`; `hasDur`
models `hasattr(track, 'duration')` (false for albums); `duration` is the raw
millisecond duration, `none` for Python `None`; an absent title is `""`. -/
structure Child where
  key : ℕ
  userRating : ℚ
  hasDur : Bool
  duration : Option ℕ
  title : String
deriving DecidableEq

/-- `is_excluded_from_averages(track, exclusion_rules)`. -/
def isExcludedFromAverages (c : Child) (rules : ExclusionRules) : Bool :=
  if !rules.enabled then false
  else if !c.hasDur then false
  else if (match c.duration with
           | some d => !(d == 0) && decide (d / 1000 < rules.minDurationSec)
           | none => false) then true
  else if rules.keywords.isEmpty || (c.title == "") then false
  else
    let t := if rules.caseSensitive then c.title else c.title.toLower
    let ks := if rules.caseSensitive then rules.keywords else rules.keywords.map String.toLower
    ks.any fun k => subMatch k.toList t.toList

/-! ## The per-item state machine of `process_layer` -/

/-- A parent reference for a downward pass (the album's artist or the track's
album).  `userRating` is `0` for an unrated parent. -/
structure ParentRef where
  key : ℕ
  userRating : ℚ
deriving DecidableEq

/-- An item of the layer being processed.  `userRating` encodes
`item.userRating or 0.0` and `criticRating` encodes `item.rating` with `0`
for `None`.  `fetchChildrenFails` (resp. `parentFetchFails`) models a remote
call inside the upward children gathering (resp. the guarded downward parent
lookup) raising an exception. -/
structure LayerItem where
  key : ℕ
  userRating : ℚ
  criticRating : ℚ
  children : List Child
  parent : Option ParentRef
  moods : List String
  fetchChildrenFails : Bool
  parentFetchFails : Bool
deriving DecidableEq

/-- Pass direction, the `direction` argument of `process_layer`. -/
inductive Direction
  | up
  | down
deriving DecidableEq

/-- How `process_layer` classified one item. `noop` covers a falsy
`inferred_rating` (Python `None` or `0.0`) and the silently skipped downward
parent-fetch failure; `noWrite` is the fall-through where neither the drift
branch nor the update branch fires. -/
inductive Outcome
  | hijacked
  | manualSkip
  | driftSkip
  | updated
  | noop
  | noWrite
deriving DecidableEq

/-- The configuration slice `process_layer` reads. `gravity` is the
`*_INHERITANCE_GRAVITY` constant selected for the layer's label. -/
structure Config where
  dryRun : Bool
  tagName : String
  confC : ℚ
  wCritic : ℚ
  wGlobal : ℚ
  bCritic : ℚ
  gravity : ℚ
  exclusion : ExclusionRules
deriving DecidableEq

/-- `CONFIDENCE_C` validation: non-positive values are reset to 3.0 with a
warning. -/
def effConfidence (c : ℚ) : ℚ :=
  if c ≤ 0 then 3 else c

/-- The children kept for the upward blend before exclusion rules:
`(c.userRating or 0) > 0 and str(c.ratingKey) not in state`. -/
def manualChildren (st : StateMap) (i : LayerItem) : List Child :=
  i.children.filter fun c => decide (0 < c.userRating) && (lookupState st c.key).isNone

/-- Exclusion-rule filtering with the fall-back to the unfiltered manual set
when filtering removed everything. -/
def contributingChildren (cfg : Config) (st : StateMap) (i : LayerItem) : List Child :=
  let mc := manualChildren st i
  if cfg.exclusion.enabled then
    let f := mc.filter fun c => !(isExcludedFromAverages c cfg.exclusion)
    if f.isEmpty && !mc.isEmpty then mc else f
  else mc

/-- The normalized-and-biased critic rating
`min(0, ((item.rating + b_critic) / (10 + b_critic)) * 10)`, `none` when the
item has no positive critic score.  The `min 0` is taken verbatim from the
source (`c_rating = min( 0, ... )`). -/
def criticComponent (cfg : Config) (i : LayerItem) : Option ℚ :=
  if 0 < i.criticRating then
    some (min 0 (((i.criticRating + cfg.bCritic) / (10 + cfg.bCritic)) * 10))
  else none

/-- The informed prior `p_i`: the critic blend when `c_rating` is truthy and
`w_critic > 0`, otherwise the global mean. -/
def informedPrior (cfg : Config) (gm : ℚ) (i : LayerItem) : ℚ :=
  match criticComponent cfg i with
  | some cr => if cr ≠ 0 ∧ 0 < cfg.wCritic then
      (gm * cfg.wGlobal + cr * cfg.wCritic) / (cfg.wGlobal + cfg.wCritic)
    else gm
  | none => gm

/-- The `--- CALCULATION ---` block of `process_layer`: the value
`inferred_rating` holds when execution reaches the drift/update block
(`none` = Python `None`).  An unguarded upward remote-call failure escapes as
`Except.error` (only `KeyboardInterrupt` is handled around the loop body); the
downward lookup sits in its own `try/except: continue`, which observably equals
leaving `inferred_rating` as `None`. -/
def computeInferred (cfg : Config) (dir : Direction) (gm : ℚ) (st : StateMap)
    (i : LayerItem) : Except Unit (Option ℚ) :=
  match dir with
  | .up =>
    if i.fetchChildrenFails then .error () else
    let cs := contributingChildren cfg st i
    let sumManual := (cs.map (·.userRating)).sum
    let nManual : ℚ := cs.length
    let cVal := effConfidence cfg.confC
    .ok (some ((cVal * informedPrior cfg gm i + sumManual) / (cVal + nManual)))
  | .down =>
    if i.parentFetchFails then .ok none
    else
      match i.parent with
      | some p =>
        if 0 < p.userRating then
          if (lookupState st p.key).isSome then .ok (some p.userRating)
          else .ok (some (p.userRating * (1 - cfg.gravity) + gm * cfg.gravity))
        else .ok none
      | none => .ok none

/-- `item.addMood(tag)` guarded by `tag_name not in [m.tag for m in item.moods]`. -/
def addMoodIfAbsent (tag : String) (ms : List String) : List String :=
  if tag ∈ ms then ms else ms ++ [tag]

/-- The item after the hijack branch's `item.removeMood(tag_name)` (a no-op
when no tag is configured). -/
def hijackItem (cfg : Config) (i : LayerItem) : LayerItem :=
  if cfg.tagName ≠ "" then { i with moods := i.moods.filter (· ≠ cfg.tagName) } else i

/-- The item after the update branch's `item.rate(inferred_rating)` and
conditional `item.addMood(tag_name)`. -/
def updateItem (cfg : Config) (i : LayerItem) (iv : ℚ) : LayerItem :=
  { i with userRating := iv,
           moods := if cfg.tagName ≠ "" then addMoodIfAbsent cfg.tagName i.moods
                    else i.moods }

/-- The drift/update block (`--- CASE D/E: DRIFT VS UPDATE ---`) given the
already-read `state_rating` and the computed `inferred_rating`. -/
def driftOrUpdate (cfg : Config) (ε : ℚ) (st : StateMap) (i : LayerItem)
    (sRec : Option StateRec) (inferred : Option ℚ) :
    StateMap × LayerItem × Outcome :=
  match inferred with
  | some iv =>
    if iv ≠ 0 then
      let delta := |i.userRating - iv|
      if sRec.isSome ∧ delta < ε then (st, i, .driftSkip)
      else if sRec.isNone ∨ 1/100 ≤ delta then
        if !cfg.dryRun then
          (insertState st i.key ⟨iv, 0⟩, updateItem cfg i iv, .updated)
        else (st, i, .updated)
      else (st, i, .noWrite)
    else (st, i, .noop)
  | none => (st, i, .noop)

/-- One iteration of the `process_layer` item loop: hijack detection, the
manual-rating skip, the inference calculation, and the drift/update block.
Returns the state, the item as mutated through `rate`/mood calls, and the
classification. -/
def processLayerStep (cfg : Config) (dir : Direction) (gm ε : ℚ) (st : StateMap)
    (i : LayerItem) : Except Unit (StateMap × LayerItem × Outcome) :=
  match lookupState st i.key with
  | some stRec =>
    if 1/100 < |stRec.r - i.userRating| then
      if !cfg.dryRun then
        .ok (eraseState st i.key, hijackItem cfg i, .hijacked)
      else .ok (st, i, .hijacked)
    else
      match computeInferred cfg dir gm st i with
      | .error e => .error e
      | .ok inferred => .ok (driftOrUpdate cfg ε st i (some stRec) inferred)
  | none =>
    if 0 < i.userRating then .ok (st, i, .manualSkip)
    else
      match computeInferred cfg dir gm st i with
      | .error e => .error e
      | .ok inferred => .ok (driftOrUpdate cfg ε st i none inferred)

/-- A whole `process_layer` pass: the item loop threaded over the state.  A
raised exception other than `KeyboardInterrupt` is not handled anywhere in the
loop, so an `Except.error` from one item aborts the remainder of the pass. -/
def processLayerRun (cfg : Config) (dir : Direction) (gm ε : ℚ) :
    StateMap → List LayerItem → Except Unit (StateMap × List (LayerItem × Outcome))
  | st, [] => .ok (st, [])
  | st, i :: rest =>
    match processLayerStep cfg dir gm ε st i with
    | .error e => .error e
    | .ok (st1, i1, o) =>
      match processLayerRun cfg dir gm ε st1 rest with
      | .error e => .error e
      | .ok (stF, res) => .ok (stF, (i1, o) :: res)

/-- `updated_count` of a pass, the number of items that took the write branch. -/
def updatedCount (res : List (LayerItem × Outcome)) : ℕ :=
  res.countP fun p => decide (p.2 = Outcome.updated)

/-! ## Twin logic (`build_twin_clusters` / `process_twins`) -/

/-- A `track_data` entry built by `build_twin_clusters`: `rating` is
`track.userRating`, `isManual` is `key not in state` at build time, `duration`
is `track.duration // 1000 if track.duration else 0` (seconds, `0` for a
missing duration), and `live` models `'Live' in track.album().subformats`
(`false` when that lookup raises, matching the `except: pass`). -/
structure TwinTrack where
  key : ℕ
  rating : ℚ
  isManual : Bool
  duration : ℕ
  live : Bool
  moods : List String
deriving DecidableEq

/-- Sorted insertion, for the sorting inside `statistics.median`. -/
def insertSortedQ (x : ℚ) : List ℚ → List ℚ
  | [] => [x]
  | y :: ys => if x ≤ y then x :: y :: ys else y :: insertSortedQ x ys

/-- Insertion sort of rationals. -/
def sortQ : List ℚ → List ℚ
  | [] => []
  | x :: xs => insertSortedQ x (sortQ xs)

/-- `statistics.median`: middle element of the sorted list, or the average of
the two middle elements for an even length.  The empty case (on which Python
raises) is mapped to `0`; it is unreachable where the source calls it. -/
def medianQ (l : List ℚ) : ℚ :=
  let s := sortQ l
  let n := l.length
  if n = 0 then 0
  else if n % 2 = 1 then s.getD (n / 2) 0
  else (s.getD (n / 2 - 1) 0 + s.getD (n / 2) 0) / 2

/-- The cluster verification loop of `build_twin_clusters`: a grouped cluster
is dropped whole if empty or if any member has a non-positive duration; the
survivors are filtered to the duration tolerance around the median duration,
then optionally stripped of live-album members (only attempted when at least
two members remain), and kept only if at least two members remain. -/
def verifyClusters (tol : ℚ) (excludeLive : Bool) :
    List (List TwinTrack) → List (List TwinTrack)
  | [] => []
  | cluster :: rest =>
    let restOut := verifyClusters tol excludeLive rest
    if cluster.isEmpty || !(cluster.all fun t => decide (0 < t.duration)) then restOut
    else
      let md := medianQ (cluster.map fun t => (t.duration : ℚ))
      let fc := cluster.filter fun t => decide (|(t.duration : ℚ) - md| ≤ tol)
      let fc2 := if excludeLive && decide (2 ≤ fc.length) then fc.filter (fun t => !t.live)
                 else fc
      if 2 ≤ fc2.length then fc2 :: restOut else restOut

/-- The tail of `build_twin_clusters` after the registry scan: groups of size
at least two are verified into final clusters. -/
def buildFinalClusters (tol : ℚ) (excludeLive : Bool)
    (groups : List (List TwinTrack)) : List (List TwinTrack) :=
  verifyClusters tol excludeLive (groups.filter fun g => decide (2 ≤ g.length))

/-- `statistics.mean` on rationals (empty list mapped to `0`; the source only
calls it on nonempty clusters). -/
def meanQ (l : List ℚ) : ℚ := l.sum / l.length

/-- The configuration slice the twin pass reads. -/
structure TwinCfg where
  dryRun : Bool
  twinTag : String
  inferredTag : String
deriving DecidableEq

/-- The manual anchors of a cluster: members without a StateRecord at build
time. -/
def twinAnchors (cluster : List TwinTrack) : List TwinTrack :=
  cluster.filter (·.isManual)

/-- Target rating and `new_twin_flag` of a cluster: the mean of the manual
anchors' ratings with flag `2` when anchors exist, otherwise the mean of all
members' ratings with flag `1`. -/
def twinTarget (cluster : List TwinTrack) : ℚ × ℕ :=
  let a := twinAnchors cluster
  if a.isEmpty then (meanQ (cluster.map (·.rating)), 1)
  else (meanQ (a.map (·.rating)), 2)

/-- The per-member body of the twin cluster loop: the final rating keeps the
member's own rating for a manual anchor in a flag-2 cluster and is the target
otherwise; when `|current - final| > epsilon` the member is counted as updated
and, outside a dry run, rated and tagged.  Returns the mutated track, the
final rating, and whether the member was counted. -/
def twinWriteTrack (cfg : TwinCfg) (target : ℚ) (flag : ℕ) (ε : ℚ)
    (t : TwinTrack) : TwinTrack × ℚ × Bool :=
  let current := t.rating
  let finalRating := if flag = 2 ∧ t.isManual then current else target
  if ε < |current - finalRating| then
    if !cfg.dryRun then
      ({ t with rating := finalRating,
                moods := (if cfg.twinTag ≠ "" then addMoodIfAbsent cfg.twinTag else id)
                  ((if cfg.inferredTag ≠ "" then addMoodIfAbsent cfg.inferredTag else id)
                    t.moods) },
       finalRating, true)
    else (t, finalRating, true)
  else (t, finalRating, false)

/-- The member loop over a cluster: outside a dry run every member's key is
upserted into the state with its final rating and the cluster flag. -/
def processTracks (cfg : TwinCfg) (target : ℚ) (flag : ℕ) (ε : ℚ) :
    StateMap → List TwinTrack → StateMap × List TwinTrack × ℕ
  | st, [] => (st, [], 0)
  | st, t :: rest =>
    let w := twinWriteTrack cfg target flag ε t
    let st1 := if !cfg.dryRun then insertState st t.key ⟨w.2.1, flag⟩ else st
    let restOut := processTracks cfg target flag ε st1 rest
    (restOut.1, w.1 :: restOut.2.1, restOut.2.2 + (if w.2.2 then 1 else 0))

/-- The body of the cluster loop of `process_twins` for one surviving
cluster. -/
def processCluster (cfg : TwinCfg) (ε : ℚ) (st : StateMap)
    (cluster : List TwinTrack) : StateMap × List TwinTrack × ℕ :=
  let tf := twinTarget cluster
  processTracks cfg tf.1 tf.2 ε st cluster

/-! ## Branch equations and locality lemmas for `process_layer` -/

theorem effConfidence_pos (c : ℚ) : 0 < effConfidence c := by
  unfold effConfidence
  split
  · norm_num
  · exact lt_of_not_le (by assumption)

theorem processLayerStep_hijack (cfg : Config) (dir : Direction) (gm ε : ℚ)
    (st : StateMap) (i : LayerItem) (rec0 : StateRec)
    (hL : lookupState st i.key = some rec0)
    (hH : 1/100 < |rec0.r - i.userRating|) (hdry : cfg.dryRun = false) :
    processLayerStep cfg dir gm ε st i =
      .ok (eraseState st i.key, hijackItem cfg i, .hijacked) := by
  unfold processLayerStep
  rw [hL]
  dsimp only
  rw [if_pos hH, hdry]
  simp

theorem processLayerStep_manual (cfg : Config) (dir : Direction) (gm ε : ℚ)
    (st : StateMap) (i : LayerItem)
    (hL : lookupState st i.key = none) (hR : 0 < i.userRating) :
    processLayerStep cfg dir gm ε st i = .ok (st, i, .manualSkip) := by
  unfold processLayerStep
  rw [hL]
  dsimp only
  simp [hR]

theorem processLayerStep_calc_some (cfg : Config) (dir : Direction) (gm ε : ℚ)
    (st : StateMap) (i : LayerItem) (rec0 : StateRec)
    (hL : lookupState st i.key = some rec0)
    (hH : ¬ 1/100 < |rec0.r - i.userRating|) :
    processLayerStep cfg dir gm ε st i =
      match computeInferred cfg dir gm st i with
      | .error e => .error e
      | .ok inferred => .ok (driftOrUpdate cfg ε st i (some rec0) inferred) := by
  unfold processLayerStep
  rw [hL]
  dsimp only
  rw [if_neg hH]

theorem processLayerStep_calc_none (cfg : Config) (dir : Direction) (gm ε : ℚ)
    (st : StateMap) (i : LayerItem)
    (hL : lookupState st i.key = none) (hR : ¬ 0 < i.userRating) :
    processLayerStep cfg dir gm ε st i =
      match computeInferred cfg dir gm st i with
      | .error e => .error e
      | .ok inferred => .ok (driftOrUpdate cfg ε st i none inferred) := by
  unfold processLayerStep
  rw [hL]
  dsimp only
  simp [hR]

theorem driftOrUpdate_none (cfg : Config) (ε : ℚ) (st : StateMap) (i : LayerItem)
    (sRec : Option StateRec) :
    driftOrUpdate cfg ε st i sRec none = (st, i, .noop) := rfl

theorem driftOrUpdate_zero (cfg : Config) (ε : ℚ) (st : StateMap) (i : LayerItem)
    (sRec : Option StateRec) :
    driftOrUpdate cfg ε st i sRec (some 0) = (st, i, .noop) := by
  simp [driftOrUpdate]

theorem driftOrUpdate_drift (cfg : Config) (ε : ℚ) (st : StateMap) (i : LayerItem)
    (sRec : Option StateRec) (iv : ℚ) (hiv : iv ≠ 0)
    (hS : sRec.isSome) (hδ : |i.userRating - iv| < ε) :
    driftOrUpdate cfg ε st i sRec (some iv) = (st, i, .driftSkip) := by
  simp [driftOrUpdate, hiv, hS, hδ]

theorem driftOrUpdate_write (cfg : Config) (ε : ℚ) (st : StateMap) (i : LayerItem)
    (sRec : Option StateRec) (iv : ℚ) (hiv : iv ≠ 0) (hdry : cfg.dryRun = false)
    (hnd : ¬ (sRec.isSome ∧ |i.userRating - iv| < ε))
    (hw : sRec.isNone ∨ 1/100 ≤ |i.userRating - iv|) :
    driftOrUpdate cfg ε st i sRec (some iv) =
      (insertState st i.key ⟨iv, 0⟩, updateItem cfg i iv, .updated) := by
  simp only [driftOrUpdate, if_pos hiv, if_neg hnd, if_pos hw, hdry]
  simp

theorem driftOrUpdate_noWrite (cfg : Config) (ε : ℚ) (st : StateMap) (i : LayerItem)
    (sRec : Option StateRec) (iv : ℚ) (hiv : iv ≠ 0)
    (hnd : ¬ (sRec.isSome ∧ |i.userRating - iv| < ε))
    (hnw : ¬ (sRec.isNone ∨ 1/100 ≤ |i.userRating - iv|)) :
    driftOrUpdate cfg ε st i sRec (some iv) = (st, i, .noWrite) := by
  simp only [driftOrUpdate, if_pos hiv, if_neg hnd, if_neg hnw]

theorem driftOrUpdate_lookup_ne (cfg : Config) (ε : ℚ) (st : StateMap) (i : LayerItem)
    (sRec : Option StateRec) (inferred : Option ℚ) (k : ℕ) (hk : k ≠ i.key) :
    lookupState (driftOrUpdate cfg ε st i sRec inferred).1 k = lookupState st k := by
  unfold driftOrUpdate
  cases inferred with
  | none => rfl
  | some iv =>
    dsimp only
    split_ifs <;> simp [lookup_insertState, hk]

theorem processLayerStep_lookup_ne (cfg : Config) (dir : Direction) (gm ε : ℚ)
    (st st1 : StateMap) (i i1 : LayerItem) (o : Outcome) (k : ℕ) (hk : k ≠ i.key)
    (h : processLayerStep cfg dir gm ε st i = .ok (st1, i1, o)) :
    lookupState st1 k = lookupState st k := by
  unfold processLayerStep at h
  cases hL : lookupState st i.key with
  | some rec0 =>
    rw [hL] at h
    dsimp only at h
    by_cases hH : 1/100 < |rec0.r - i.userRating|
    · rw [if_pos hH] at h
      by_cases hdry : cfg.dryRun
      · simp [hdry] at h
        obtain ⟨h1, _, _⟩ := h
        rw [← h1]
      · simp [hdry] at h
        obtain ⟨h1, _, _⟩ := h
        rw [← h1, lookup_eraseState, if_neg hk]
    · rw [if_neg hH] at h
      cases hCI : computeInferred cfg dir gm st i with
      | error e => rw [hCI] at h; exact absurd h (by simp)
      | ok inferred =>
        rw [hCI] at h
        simp only [Except.ok.injEq] at h
        have h2 := driftOrUpdate_lookup_ne cfg ε st i (some rec0) inferred k hk
        rw [h] at h2
        exact h2
  | none =>
    rw [hL] at h
    dsimp only at h
    by_cases hR : 0 < i.userRating
    · rw [if_pos hR] at h
      simp only [Except.ok.injEq] at h
      have h1 : st = st1 := congrArg Prod.fst h
      subst h1
      rfl
    · rw [if_neg hR] at h
      cases hCI : computeInferred cfg dir gm st i with
      | error e => rw [hCI] at h; exact absurd h (by simp)
      | ok inferred =>
        rw [hCI] at h
        simp only [Except.ok.injEq] at h
        have h2 := driftOrUpdate_lookup_ne cfg ε st i none inferred k hk
        rw [h] at h2
        exact h2

theorem processLayerRun_lookup_ne (cfg : Config) (dir : Direction) (gm ε : ℚ)
    (items : List LayerItem) :
    ∀ (st stF : StateMap) (res : List (LayerItem × Outcome)) (k : ℕ),
      k ∉ items.map (·.key) →
      processLayerRun cfg dir gm ε st items = .ok (stF, res) →
      lookupState stF k = lookupState st k := by
  induction items with
  | nil =>
    intro st stF res k _ h
    unfold processLayerRun at h
    simp only [Except.ok.injEq] at h
    have h1 : st = stF := congrArg Prod.fst h
    subst h1
    rfl
  | cons i rest ih =>
    intro st stF res k hk h
    unfold processLayerRun at h
    cases hs : processLayerStep cfg dir gm ε st i with
    | error e => rw [hs] at h; exact absurd h (by simp)
    | ok tr =>
      obtain ⟨st1, i1, o⟩ := tr
      rw [hs] at h
      dsimp only at h
      cases hr : processLayerRun cfg dir gm ε st1 rest with
      | error e => rw [hr] at h; exact absurd h (by simp)
      | ok pr =>
        obtain ⟨stF2, res2⟩ := pr
        rw [hr] at h
        simp only [Except.ok.injEq] at h
        have h1 : stF2 = stF := congrArg Prod.fst h
        subst h1
        have hk1 : k ≠ i.key := by
          intro hcontra
          exact hk (by simp [hcontra])
        have hk2 : k ∉ rest.map (·.key) := by
          intro hcontra
          exact hk (by simp [hcontra])
        rw [ih st1 stF2 res2 k hk2 hr]
        exact processLayerStep_lookup_ne cfg dir gm ε st st1 i i1 o k hk1 hs

theorem computeInferred_state_congr (cfg : Config) (dir : Direction) (gm : ℚ)
    (S T : StateMap) (i : LayerItem)
    (hc : ∀ c ∈ i.children, lookupState T c.key = lookupState S c.key)
    (hp : ∀ p, i.parent = some p → lookupState T p.key = lookupState S p.key) :
    computeInferred cfg dir gm T i = computeInferred cfg dir gm S i := by
  cases dir with
  | up =>
    unfold computeInferred
    have hmc : manualChildren T i = manualChildren S i := by
      unfold manualChildren
      exact List.filter_congr fun c hcmem => by rw [hc c hcmem]
    have hcc : contributingChildren cfg T i = contributingChildren cfg S i := by
      unfold contributingChildren
      rw [hmc]
    rw [hcc]
  | down =>
    unfold computeInferred
    cases hpar : i.parent with
    | none => rfl
    | some p =>
      dsimp only
      rw [hp p hpar]

theorem computeInferred_item_congr (cfg : Config) (dir : Direction) (gm : ℚ)
    (st : StateMap) (i : LayerItem) (x : ℚ) (m : List String) :
    computeInferred cfg dir gm st { i with userRating := x, moods := m } =
      computeInferred cfg dir gm st i := by
  cases dir <;> (cases i; rfl)

theorem hijackItem_fields (cfg : Config) (i : LayerItem) :
    (hijackItem cfg i).key = i.key ∧ (hijackItem cfg i).userRating = i.userRating ∧
    (hijackItem cfg i).children = i.children ∧ (hijackItem cfg i).parent = i.parent := by
  unfold hijackItem
  split <;> simp

theorem updateItem_eq (cfg : Config) (i : LayerItem) (iv : ℚ) :
    updateItem cfg i iv =
      { i with userRating := iv,
               moods := if cfg.tagName ≠ "" then addMoodIfAbsent cfg.tagName i.moods
                        else i.moods } := rfl

theorem processLayerStep_after_update (cfg : Config) (dir : Direction) (gm ε : ℚ)
    (T : StateMap) (i : LayerItem) (iv : ℚ)
    (hε : 1/100 < ε) (hiv : iv ≠ 0)
    (hT : lookupState T i.key = some ⟨iv, 0⟩)
    (hCIT : computeInferred cfg dir gm T i = .ok (some iv)) :
    processLayerStep cfg dir gm ε T (updateItem cfg i iv) =
      .ok (T, updateItem cfg i iv, .driftSkip) := by
  have hε0 : (0:ℚ) < ε := lt_trans (by norm_num) hε
  have hkey : (updateItem cfg i iv).key = i.key := rfl
  have hur : (updateItem cfg i iv).userRating = iv := rfl
  have hci2 : computeInferred cfg dir gm T (updateItem cfg i iv) = .ok (some iv) := by
    rw [updateItem_eq, computeInferred_item_congr, hCIT]
  have hlook : lookupState T (updateItem cfg i iv).key = some ⟨iv, 0⟩ := by
    rw [hkey]; exact hT
  have hnoH : ¬ 1/100 < |(⟨iv, 0⟩ : StateRec).r - (updateItem cfg i iv).userRating| := by
    rw [hur]; norm_num
  rw [processLayerStep_calc_some cfg dir gm ε T (updateItem cfg i iv) ⟨iv, 0⟩ hlook hnoH,
      hci2]
  dsimp only
  rw [driftOrUpdate_drift cfg ε T (updateItem cfg i iv) (some ⟨iv, 0⟩) iv hiv rfl
      (by rw [hur]; simpa using hε0)]

theorem processLayerStep_second (cfg : Config) (dir : Direction) (gm ε : ℚ)
    (S T st1 : StateMap) (i i1 : LayerItem) (o : Outcome)
    (hdry : cfg.dryRun = false) (hε : 1/100 < ε)
    (hstale : ∀ rec0 : StateRec, lookupState S i.key = some rec0 →
      1/100 < |rec0.r - i.userRating| → 0 < i.userRating)
    (h1 : processLayerStep cfg dir gm ε S i = .ok (st1, i1, o))
    (hT : lookupState T i.key = lookupState st1 i.key)
    (hc : ∀ c ∈ i.children, lookupState T c.key = lookupState S c.key)
    (hp : ∀ p, i.parent = some p → lookupState T p.key = lookupState S p.key) :
    ∃ o2, processLayerStep cfg dir gm ε T i1 = .ok (T, i1, o2) ∧
      (o2 = .driftSkip ∨ o2 = .noop ∨ o2 = .manualSkip) := by
  have hε0 : (0:ℚ) < ε := lt_trans (by norm_num) hε
  cases hL : lookupState S i.key with
  | some rec0 =>
    by_cases hH : 1/100 < |rec0.r - i.userRating|
    · rw [processLayerStep_hijack cfg dir gm ε S i rec0 hL hH hdry] at h1
      simp only [Except.ok.injEq, Prod.mk.injEq] at h1
      obtain ⟨hst1, hi1, -⟩ := h1
      have hrat : 0 < i.userRating := hstale rec0 hL hH
      obtain ⟨hk, hur, -, -⟩ := hijackItem_fields cfg i
      have hlook : lookupState T i1.key = none := by
        rw [← hi1, hk, hT, ← hst1, lookup_eraseState, if_pos rfl]
      have hr1 : 0 < i1.userRating := by rw [← hi1, hur]; exact hrat
      exact ⟨.manualSkip, processLayerStep_manual cfg dir gm ε T i1 hlook hr1,
        Or.inr (Or.inr rfl)⟩
    · rw [processLayerStep_calc_some cfg dir gm ε S i rec0 hL hH] at h1
      cases hCI : computeInferred cfg dir gm S i with
      | error e => rw [hCI] at h1; exact absurd h1 (by simp)
      | ok inferred =>
        rw [hCI] at h1
        dsimp only at h1
        simp only [Except.ok.injEq] at h1
        have hCIT : computeInferred cfg dir gm T i = .ok inferred := by
          rw [computeInferred_state_congr cfg dir gm S T i hc hp, hCI]
        cases inferred with
        | none =>
          rw [driftOrUpdate_none] at h1
          simp only [Prod.mk.injEq] at h1
          obtain ⟨rfl, rfl, rfl⟩ := h1
          refine ⟨.noop, ?_, Or.inr (Or.inl rfl)⟩
          rw [processLayerStep_calc_some cfg dir gm ε T i rec0 (by rw [hT, hL]) hH, hCIT]
          dsimp only
          rw [driftOrUpdate_none]
        | some iv =>
          by_cases hiv : iv = 0
          · subst hiv
            rw [driftOrUpdate_zero] at h1
            simp only [Prod.mk.injEq] at h1
            obtain ⟨rfl, rfl, rfl⟩ := h1
            refine ⟨.noop, ?_, Or.inr (Or.inl rfl)⟩
            rw [processLayerStep_calc_some cfg dir gm ε T i rec0 (by rw [hT, hL]) hH, hCIT]
            dsimp only
            rw [driftOrUpdate_zero]
          · by_cases hdelta : |i.userRating - iv| < ε
            · rw [driftOrUpdate_drift cfg ε S i (some rec0) iv hiv rfl hdelta] at h1
              simp only [Prod.mk.injEq] at h1
              obtain ⟨rfl, rfl, rfl⟩ := h1
              refine ⟨.driftSkip, ?_, Or.inl rfl⟩
              rw [processLayerStep_calc_some cfg dir gm ε T i rec0 (by rw [hT, hL]) hH, hCIT]
              dsimp only
              rw [driftOrUpdate_drift cfg ε T i (some rec0) iv hiv rfl hdelta]
            · by_cases hw : 1/100 ≤ |i.userRating - iv|
              · rw [driftOrUpdate_write cfg ε S i (some rec0) iv hiv hdry
                  (fun hcon => hdelta hcon.2) (Or.inr hw)] at h1
                simp only [Prod.mk.injEq] at h1
                obtain ⟨rfl, rfl, rfl⟩ := h1
                refine ⟨.driftSkip, ?_, Or.inl rfl⟩
                have hTiv : lookupState T i.key = some ⟨iv, 0⟩ := by
                  rw [hT, lookup_insertState, if_pos rfl]
                exact processLayerStep_after_update cfg dir gm ε T i iv hε hiv hTiv hCIT
              · exact absurd hε (by push_neg at hdelta hw; intro hcon; linarith)
  | none =>
    by_cases hR : 0 < i.userRating
    · rw [processLayerStep_manual cfg dir gm ε S i hL hR] at h1
      simp only [Except.ok.injEq, Prod.mk.injEq] at h1
      obtain ⟨rfl, rfl, rfl⟩ := h1
      refine ⟨.manualSkip, ?_, Or.inr (Or.inr rfl)⟩
      exact processLayerStep_manual cfg dir gm ε T i (by rw [hT, hL]) hR
    · rw [processLayerStep_calc_none cfg dir gm ε S i hL hR] at h1
      cases hCI : computeInferred cfg dir gm S i with
      | error e => rw [hCI] at h1; exact absurd h1 (by simp)
      | ok inferred =>
        rw [hCI] at h1
        dsimp only at h1
        simp only [Except.ok.injEq] at h1
        have hCIT : computeInferred cfg dir gm T i = .ok inferred := by
          rw [computeInferred_state_congr cfg dir gm S T i hc hp, hCI]
        cases inferred with
        | none =>
          rw [driftOrUpdate_none] at h1
          simp only [Prod.mk.injEq] at h1
          obtain ⟨rfl, rfl, rfl⟩ := h1
          refine ⟨.noop, ?_, Or.inr (Or.inl rfl)⟩
          rw [processLayerStep_calc_none cfg dir gm ε T i (by rw [hT, hL]) hR, hCIT]
          dsimp only
          rw [driftOrUpdate_none]
        | some iv =>
          by_cases hiv : iv = 0
          · subst hiv
            rw [driftOrUpdate_zero] at h1
            simp only [Prod.mk.injEq] at h1
            obtain ⟨rfl, rfl, rfl⟩ := h1
            refine ⟨.noop, ?_, Or.inr (Or.inl rfl)⟩
            rw [processLayerStep_calc_none cfg dir gm ε T i (by rw [hT, hL]) hR, hCIT]
            dsimp only
            rw [driftOrUpdate_zero]
          · rw [driftOrUpdate_write cfg ε S i none iv hiv hdry (by simp) (Or.inl rfl)] at h1
            simp only [Prod.mk.injEq] at h1
            obtain ⟨rfl, rfl, rfl⟩ := h1
            refine ⟨.driftSkip, ?_, Or.inl rfl⟩
            have hTiv : lookupState T i.key = some ⟨iv, 0⟩ := by
              rw [hT, lookup_insertState, if_pos rfl]
            exact processLayerStep_after_update cfg dir gm ε T i iv hε hiv hTiv hCIT

/-- Rating keys are unique across the library: no child or parent key of a
pass item is itself the key of a pass item (children and parents belong to a
different layer of the hierarchy). -/
def relKeysDisjoint (items : List LayerItem) : Prop :=
  ∀ i ∈ items, (∀ c ∈ i.children, c.key ∉ items.map (·.key)) ∧
    (∀ p : ParentRef, i.parent = some p → p.key ∉ items.map (·.key))

/-- Every stale StateRecord held by a pass item (recorded rating differing
from the observed one by more than 0.01) belongs to an item whose observed
rating is positive, i.e. no engine-owned rating was externally cleared to
unrated. -/
def staleOnlyRated (S : StateMap) (items : List LayerItem) : Prop :=
  ∀ i ∈ items, ∀ rec0 : StateRec, lookupState S i.key = some rec0 →
    1/100 < |rec0.r - i.userRating| → 0 < i.userRating

/-- Second-run behaviour of one `process_layer` pass: re-running the pass on
its own output (no external change: the second run consumes the items and
state the first run left) yields zero writes, with every item landing in
Drift-tolerated, No-op, or the manual-rating skip — provided each stale
StateRecord of the first run sits on an item whose observed rating is
positive. -/
theorem processLayerRun_second_run (cfg : Config) (dir : Direction) (gm ε : ℚ)
    (hdry : cfg.dryRun = false) (hε : 1/100 < ε) :
    ∀ (items : List LayerItem) (S S1 : StateMap) (res : List (LayerItem × Outcome)),
      (items.map (·.key)).Nodup →
      relKeysDisjoint items →
      staleOnlyRated S items →
      processLayerRun cfg dir gm ε S items = .ok (S1, res) →
      ∃ res2, processLayerRun cfg dir gm ε S1 (res.map (·.1)) = .ok (S1, res2) ∧
        res2.map (·.1) = res.map (·.1) ∧
        (∀ p ∈ res2, p.2 = Outcome.driftSkip ∨ p.2 = Outcome.noop ∨
          p.2 = Outcome.manualSkip) ∧
        updatedCount res2 = 0 := by
  intro items
  induction items with
  | nil =>
    intro S S1 res _ _ _ h
    unfold processLayerRun at h
    simp only [Except.ok.injEq, Prod.mk.injEq] at h
    obtain ⟨rfl, rfl⟩ := h
    exact ⟨[], by unfold processLayerRun; rfl, rfl, by simp, rfl⟩
  | cons i rest ih =>
    intro S S1 res hnd hdisj hstale h
    rw [List.map_cons, List.nodup_cons] at hnd
    obtain ⟨hnd1, hnd2⟩ := hnd
    unfold processLayerRun at h
    cases hs : processLayerStep cfg dir gm ε S i with
    | error e => rw [hs] at h; exact absurd h (by simp)
    | ok tr =>
      obtain ⟨st1, i1, o⟩ := tr
      rw [hs] at h
      dsimp only at h
      cases hr : processLayerRun cfg dir gm ε st1 rest with
      | error e => rw [hr] at h; exact absurd h (by simp)
      | ok pr =>
        obtain ⟨stF2, resR⟩ := pr
        rw [hr] at h
        simp only [Except.ok.injEq, Prod.mk.injEq] at h
        obtain ⟨rfl, rfl⟩ := h
        -- the final state of run 1 agrees with the post-step state at `i.key`
        have hT : lookupState stF2 i.key = lookupState st1 i.key :=
          processLayerRun_lookup_ne cfg dir gm ε rest st1 stF2 resR i.key hnd1 hr
        -- and with the initial state at all child and parent keys of `i`
        obtain ⟨hdc, hdp⟩ := hdisj i (List.mem_cons_self i rest)
        have hc : ∀ c ∈ i.children, lookupState stF2 c.key = lookupState S c.key := by
          intro c hcm
          have hnotin := hdc c hcm
          rw [List.map_cons] at hnotin
          have hck : c.key ≠ i.key := fun hcontra => hnotin (by simp [hcontra])
          have hcr : c.key ∉ rest.map (·.key) := fun hcontra => hnotin (by simp [hcontra])
          rw [processLayerRun_lookup_ne cfg dir gm ε rest st1 stF2 resR c.key hcr hr]
          exact processLayerStep_lookup_ne cfg dir gm ε S st1 i i1 o c.key hck hs
        have hp : ∀ p : ParentRef, i.parent = some p →
            lookupState stF2 p.key = lookupState S p.key := by
          intro p hpm
          have hnotin := hdp p hpm
          rw [List.map_cons] at hnotin
          have hpk : p.key ≠ i.key := fun hcontra => hnotin (by simp [hcontra])
          have hpr : p.key ∉ rest.map (·.key) := fun hcontra => hnotin (by simp [hcontra])
          rw [processLayerRun_lookup_ne cfg dir gm ε rest st1 stF2 resR p.key hpr hr]
          exact processLayerStep_lookup_ne cfg dir gm ε S st1 i i1 o p.key hpk hs
        obtain ⟨o2, hstep2, ho2⟩ := processLayerStep_second cfg dir gm ε S stF2 st1 i i1 o
          hdry hε (hstale i (List.mem_cons_self i rest)) hs hT hc hp
        -- the inductive hypothesis applies to the tail from the post-step state
        have hstale2 : staleOnlyRated st1 rest := by
          intro r hrm rec0 hlr
          have hrk : r.key ≠ i.key := by
            intro hcontra
            exact hnd1 (hcontra ▸ List.mem_map_of_mem (·.key) hrm)
          rw [processLayerStep_lookup_ne cfg dir gm ε S st1 i i1 o r.key hrk hs] at hlr
          exact hstale r (List.mem_cons_of_mem i hrm) rec0 hlr
        have hdisj2 : relKeysDisjoint rest := by
          intro r hrm
          obtain ⟨hdc2, hdp2⟩ := hdisj r (List.mem_cons_of_mem i hrm)
          constructor
          · intro c hcm hcontra
            exact hdc2 c hcm (by rw [List.map_cons]; exact List.mem_cons_of_mem _ hcontra)
          · intro p hpm hcontra
            exact hdp2 p hpm (by rw [List.map_cons]; exact List.mem_cons_of_mem _ hcontra)
        obtain ⟨res2R, hrun2, hmap2, hsk2, hcnt2⟩ :=
          ih st1 stF2 resR hnd2 hdisj2 hstale2 hr
        refine ⟨(i1, o2) :: res2R, ?_, ?_, ?_, ?_⟩
        · rw [List.map_cons]
          unfold processLayerRun
          rw [hstep2]
          dsimp only
          rw [hrun2]
        · simp [hmap2]
        · intro p hpm
          rcases List.mem_cons.mp hpm with hph | hpt
          · rw [hph]; exact ho2
          · exact hsk2 p hpt
        · unfold updatedCount
          rw [List.countP_cons]
          have : decide ((i1, o2).2 = Outcome.updated) = false := by
            rcases ho2 with h | h | h <;> simp [h]
          rw [this]
          simpa [updatedCount] using hcnt2

/-! ## Example fixtures (configuration as in `config.json` defaults, with
`DRY_RUN` off and tagging disabled unless stated) -/

def exRulesOff : ExclusionRules := ⟨false, 60, [], false⟩

def baseCfg : Config := ⟨false, "", 3, 3, 1, 3/2, 1/5, exRulesOff⟩

def tagCfg : Config := ⟨false, "Rating_Inferred", 3, 3, 1, 3/2, 1/5, exRulesOff⟩

def c1ChildA : Child := ⟨100, 6, true, some 200000, "alpha"⟩

def c1ChildB : Child := ⟨101, 8, true, some 210000, "beta"⟩

def c1Item : LayerItem := ⟨1, 0, 0, [c1ChildA, c1ChildB], none, [], false, false⟩

/-- C1: in an upward pass, given the contributing children (observed rating
positive, no StateRecord, after exclusion filtering with fall-back), the
informed prior `p_i` and a positive confidence constant `C`, the inferred
rating is exactly `(C * p_i + sum of child ratings) / (C + n)`. -/
theorem c1_upward_blend (cfg : Config) (gm : ℚ) (st : StateMap) (i : LayerItem)
    (hC : 0 < cfg.confC) (hFail : i.fetchChildrenFails = false) :
    computeInferred cfg .up gm st i =
      .ok (some ((cfg.confC * informedPrior cfg gm i +
          ((contributingChildren cfg st i).map (·.userRating)).sum) /
        (cfg.confC + ((contributingChildren cfg st i).length : ℚ)))) := by
  unfold computeInferred
  rw [hFail, if_neg Bool.false_ne_true]
  unfold effConfidence
  rw [if_neg (not_le.mpr hC)]

/-- C1 witness: children rated 6.0 and 8.0, `C = 3.0`, `p_i = 6.0` yield the
inferred rating `6.4 = 32/5`. -/
theorem c1_upward_blend_witness :
    computeInferred baseCfg .up 6 [] c1Item = .ok (some (32/5)) := by
  rw [c1_upward_blend baseCfg 6 [] c1Item (by norm_num [baseCfg]) rfl]
  norm_num [contributingChildren, manualChildren, informedPrior, criticComponent,
    baseCfg, exRulesOff, c1Item, c1ChildA, c1ChildB, lookupState]

/-- C2: an item holding a StateRecord whose recorded rating differs from the
observed rating by more than 0.01 is hijack-resolved: the StateRecord is
deleted, the provenance tag is removed from the item, the item counts as a
hijack, and its observed rating is left unchanged (nothing is written). -/
theorem c2_hijack_detection (cfg : Config) (dir : Direction) (gm ε : ℚ)
    (st : StateMap) (i : LayerItem) (rec0 : StateRec)
    (hL : lookupState st i.key = some rec0)
    (hH : 1/100 < |rec0.r - i.userRating|)
    (hdry : cfg.dryRun = false) (hTag : cfg.tagName ≠ "") :
    processLayerStep cfg dir gm ε st i =
      .ok (eraseState st i.key, hijackItem cfg i, .hijacked) ∧
    lookupState (eraseState st i.key) i.key = none ∧
    (hijackItem cfg i).userRating = i.userRating ∧
    cfg.tagName ∉ (hijackItem cfg i).moods := by
  refine ⟨processLayerStep_hijack cfg dir gm ε st i rec0 hL hH hdry, ?_, ?_, ?_⟩
  · rw [lookup_eraseState, if_pos rfl]
  · exact (hijackItem_fields cfg i).2.1
  · unfold hijackItem
    rw [if_pos hTag]
    simp

def c2Item : LayerItem := ⟨5, 6, 0, [], none, ["Rating_Inferred"], false, false⟩

/-- C2 witness: the spec's round-trip example — record `{r: 4.0}`, observed
rating changed externally to 6.0 — deletes the record, strips the tag, counts
a hijack, and leaves the rating at 6.0. -/
theorem c2_hijack_witness :
    processLayerStep tagCfg .up 6 (1/50) [(5, ⟨4, 0⟩)] c2Item =
      .ok ([], { c2Item with moods := [] }, .hijacked) ∧
    lookupState (eraseState [(5, ⟨4, 0⟩)] 5) 5 = none ∧
    (hijackItem tagCfg c2Item).userRating = 6 ∧
    "Rating_Inferred" ∉ (hijackItem tagCfg c2Item).moods := by
  have h := c2_hijack_detection tagCfg .up 6 (1/50) [(5, ⟨4, 0⟩)] c2Item ⟨4, 0⟩
    rfl (by norm_num [c2Item]) rfl (by simp [tagCfg])
  refine ⟨?_, h.2.1, h.2.2.1.trans rfl, h.2.2.2⟩
  rw [h.1]
  have htag : ¬ ("Rating_Inferred" : String) = "" := by decide
  norm_num [eraseState, hijackItem, tagCfg, c2Item, List.filter_cons, htag]

/-- C5: in a downward pass, a child with a rated parent inherits the parent's
rating directly when the parent has a StateRecord (its rating is inferred),
and inherits `parent * (1 - gravity) + globalPrior * gravity` when the
parent's rating is manual; an unrated or missing parent produces no rating. -/
theorem c5_downward_inheritance (cfg : Config) (gm : ℚ) (st : StateMap)
    (i : LayerItem) (hFail : i.parentFetchFails = false) :
    (∀ p : ParentRef, i.parent = some p → 0 < p.userRating →
      ((lookupState st p.key).isSome →
        computeInferred cfg .down gm st i = .ok (some p.userRating)) ∧
      (lookupState st p.key = none →
        computeInferred cfg .down gm st i =
          .ok (some (p.userRating * (1 - cfg.gravity) + gm * cfg.gravity)))) ∧
    (∀ p : ParentRef, i.parent = some p → p.userRating ≤ 0 →
      computeInferred cfg .down gm st i = .ok none) ∧
    (i.parent = none → computeInferred cfg .down gm st i = .ok none) := by
  unfold computeInferred
  rw [hFail, if_neg Bool.false_ne_true]
  refine ⟨?_, ?_, ?_⟩
  · intro p hpar hpr
    rw [hpar]
    dsimp only
    rw [if_pos hpr]
    exact ⟨fun hs => by rw [if_pos hs], fun hn => by rw [if_neg (by rw [hn]; simp)]⟩
  · intro p hpar hpr
    rw [hpar]
    dsimp only
    rw [if_neg (not_lt.mpr hpr)]
  · intro hpar
    rw [hpar]

def c5Item : LayerItem := ⟨7, 0, 0, [], some ⟨50, 8⟩, [], false, false⟩

/-- C5 witness: manual parent rated 8.0, `gravity = 0.2`, prior 6.0 yields
the inferred child rating `7.6 = 38/5`. -/
theorem c5_downward_witness :
    computeInferred baseCfg .down 6 [] c5Item = .ok (some (38/5)) := by
  have h := ((c5_downward_inheritance baseCfg 6 [] c5Item rfl).1 ⟨50, 8⟩ rfl
    (by norm_num)).2 rfl
  rw [h]
  norm_num [baseCfg]

/-- C8: because of the inverted clamp `min(0, ...)`, the normalized critic
component is 0 for every positive critic score, it is therefore falsy, and the
informed prior `p_i` always equals the global prior — the configured
critic/global weights never blend in. -/
theorem c8_critic_prior_collapses (cfg : Config) (gm : ℚ) (i : LayerItem)
    (hB : 0 ≤ cfg.bCritic) (hCrit : 0 < i.criticRating) :
    informedPrior cfg gm i = gm := by
  unfold informedPrior criticComponent
  rw [if_pos hCrit]
  have hden : (0:ℚ) < 10 + cfg.bCritic := by linarith
  have hx : 0 ≤ ((i.criticRating + cfg.bCritic) / (10 + cfg.bCritic)) * 10 := by
    have hnum : (0:ℚ) ≤ i.criticRating + cfg.bCritic := by linarith
    have := div_nonneg hnum (le_of_lt hden)
    linarith
  rw [min_eq_left hx]
  dsimp only
  simp

def c8Item : LayerItem := ⟨9, 0, 8, [], none, [], false, false⟩

/-- C8 witness: a group with critic score 8.0, bias 1.5, weights 3/1 and
global prior 6.0 still gets `p_i = 6.0`. -/
theorem c8_critic_witness : informedPrior baseCfg 6 c8Item = 6 :=
  c8_critic_prior_collapses baseCfg 6 c8Item (by norm_num [baseCfg])
    (by norm_num [c8Item])

def c4Item : LayerItem := ⟨2, 0, 0, [], none, [], false, false⟩

/-- C4 counterexample: an upward-pass group with no children at all — hence no
rated relatives — is NOT skipped.  The blend degenerates to the informed prior
(here the global prior 6), which is truthy, so the pass writes it and creates
a StateRecord, contradicting the claimed No-op skip. -/
theorem c4_counterexample :
    processLayerStep baseCfg .up 6 (1/50) [] c4Item =
      .ok ([(2, ⟨6, 0⟩)], { c4Item with userRating := 6 }, .updated) := by
  have hci : computeInferred baseCfg .up 6 [] c4Item = .ok (some 6) := by
    norm_num [computeInferred, contributingChildren, manualChildren, informedPrior,
      criticComponent, effConfidence, baseCfg, exRulesOff, c4Item]
  rw [processLayerStep_calc_none baseCfg .up 6 (1/50) [] c4Item rfl
    (by norm_num [c4Item]), hci]
  dsimp only
  rw [driftOrUpdate_write baseCfg (1/50) [] c4Item none 6 (by norm_num) rfl
    (by simp) (Or.inl rfl)]
  norm_num [insertState, eraseState, updateItem, baseCfg, c4Item]

/-- C4 (amended): in the upward direction the inferred rating is always
defined — a group with no contributing children gets exactly the informed
prior `p_i` (and is written when the update conditions hold, as the
counterexample shows).  Only in the downward direction is the inferred rating
undefined: a new unrated child whose parent is missing (or unrated) is skipped
with no write and no StateRecord. -/
theorem c4_amended_noop_scope (cfg : Config) (gm ε : ℚ) (st : StateMap)
    (i : LayerItem) :
    (i.fetchChildrenFails = false → contributingChildren cfg st i = [] →
      computeInferred cfg .up gm st i = .ok (some (informedPrior cfg gm i))) ∧
    (i.parentFetchFails = false → i.parent = none → lookupState st i.key = none →
      i.userRating = 0 →
      processLayerStep cfg .down gm ε st i = .ok (st, i, .noop)) := by
  constructor
  · intro hf hcc
    unfold computeInferred
    rw [hf, if_neg Bool.false_ne_true, hcc]
    simp only [List.map_nil, List.sum_nil, List.length_nil, Nat.cast_zero, add_zero]
    rw [mul_div_cancel_left₀ _ (ne_of_gt (effConfidence_pos cfg.confC))]
  · intro hf hpar hlook hr
    have hci : computeInferred cfg .down gm st i = .ok none := by
      unfold computeInferred
      rw [hf, if_neg Bool.false_ne_true, hpar]
    rw [processLayerStep_calc_none cfg .down gm ε st i hlook (by rw [hr]; norm_num), hci]
    dsimp only
    rw [driftOrUpdate_none]

def c4ItemDown : LayerItem := ⟨3, 0, 0, [], none, [], false, false⟩

/-- C4 amended witness: a childless group inherits exactly the prior 6 in the
upward direction, while a parentless unrated child is a No-op in the downward
direction (state and item untouched). -/
theorem c4_amended_witness :
    computeInferred baseCfg .up 6 [] c4ItemDown = .ok (some 6) ∧
    processLayerStep baseCfg .down 6 (1/50) [] c4ItemDown =
      .ok ([], c4ItemDown, .noop) := by
  constructor
  · have h := (c4_amended_noop_scope baseCfg 6 (1/50) [] c4ItemDown).1 rfl rfl
    rw [h]
    norm_num [informedPrior, criticComponent, c4ItemDown]
  · exact (c4_amended_noop_scope baseCfg 6 (1/50) [] c4ItemDown).2 rfl rfl rfl rfl

def c9Fail : LayerItem := ⟨6, 0, 0, [], none, [], true, false⟩

def c9Good : LayerItem := ⟨60, 0, 0, [⟨102, 8, true, some 200000, "gamma"⟩], none, [],
  false, false⟩

/-- C9 counterexample: in `process_layer` only `KeyboardInterrupt` is handled
around the item loop body, so a single failing remote call while gathering an
upward item's children escapes the loop and aborts the whole pass — the
remaining items (here a perfectly processable one) are never reached, refuting
"caught, logged, and the pass continues". -/
theorem c9_counterexample :
    processLayerRun baseCfg .up 6 (1/50) [] [c9Fail, c9Good] = .error () := by
  have hstep : processLayerStep baseCfg .up 6 (1/50) [] c9Fail = .error () := by
    rw [processLayerStep_calc_none baseCfg .up 6 (1/50) [] c9Fail rfl
      (by norm_num [c9Fail])]
    rfl
  unfold processLayerRun
  rw [hstep]

/-- C9 (amended): the only guarded per-item remote call in `process_layer` is
the downward parent lookup: its failure is caught by a bare
`except: continue`, the item is silently skipped (state and item untouched,
classified here as No-op), and the pass continues with the remaining items.
Any other per-item remote-call failure aborts the pass (see the
counterexample). -/
theorem c9_amended_down_guard (cfg : Config) (gm ε : ℚ) (st : StateMap)
    (i : LayerItem) (rest : List LayerItem)
    (hFail : i.parentFetchFails = true)
    (hLook : lookupState st i.key = none) (hR : i.userRating = 0) :
    processLayerStep cfg .down gm ε st i = .ok (st, i, .noop) ∧
    ∀ stF res, processLayerRun cfg .down gm ε st rest = .ok (stF, res) →
      processLayerRun cfg .down gm ε st (i :: rest) = .ok (stF, (i, .noop) :: res) := by
  have hci : computeInferred cfg .down gm st i = .ok none := by
    unfold computeInferred
    rw [hFail, if_pos rfl]
  have hstep : processLayerStep cfg .down gm ε st i = .ok (st, i, .noop) := by
    rw [processLayerStep_calc_none cfg .down gm ε st i hLook (by rw [hR]; norm_num), hci]
    dsimp only
    rw [driftOrUpdate_none]
  refine ⟨hstep, fun stF res hrun => ?_⟩
  unfold processLayerRun
  rw [hstep]
  dsimp only
  rw [hrun]

def c9FailDown : LayerItem := ⟨8, 0, 0, [], some ⟨50, 8⟩, [], false, true⟩

/-- C9 amended witness: a downward item whose parent fetch fails is skipped as
a No-op and the pass continues, processing (and here writing) the next item. -/
theorem c9_amended_witness :
    processLayerStep baseCfg .down 6 (1/50) [] c9FailDown = .ok ([], c9FailDown, .noop) ∧
    processLayerRun baseCfg .down 6 (1/50) [] [c9FailDown, c5Item] =
      .ok ([(7, ⟨38/5, 0⟩)],
        [(c9FailDown, .noop), ({ c5Item with userRating := 38/5 }, .updated)]) := by
  have h := c9_amended_down_guard baseCfg 6 (1/50) [] c9FailDown [c5Item] rfl rfl rfl
  have hci : computeInferred baseCfg .down 6 [] c5Item = .ok (some (38/5)) := by
    norm_num [computeInferred, baseCfg, c5Item, lookupState]
  have hstep5 : processLayerStep baseCfg .down 6 (1/50) [] c5Item =
      .ok ([(7, ⟨38/5, 0⟩)], { c5Item with userRating := 38/5 }, .updated) := by
    rw [processLayerStep_calc_none baseCfg .down 6 (1/50) [] c5Item rfl
      (by norm_num [c5Item]), hci]
    dsimp only
    rw [driftOrUpdate_write baseCfg (1/50) [] c5Item none (38/5) (by norm_num) rfl
      (by simp) (Or.inl rfl)]
    norm_num [insertState, eraseState, updateItem, baseCfg, c5Item]
  have hrest : processLayerRun baseCfg .down 6 (1/50) [] [c5Item] =
      .ok ([(7, ⟨38/5, 0⟩)], [({ c5Item with userRating := 38/5 }, .updated)]) := by
    unfold processLayerRun
    rw [hstep5]
    dsimp only
    unfold processLayerRun
    rfl
  exact ⟨h.1, h.2 _ _ hrest⟩

/-! ## Twin pass lemmas and claims -/

theorem processTracks_tracks (cfg : TwinCfg) (target : ℚ) (flag : ℕ) (ε : ℚ)
    (l : List TwinTrack) : ∀ st : StateMap,
    (processTracks cfg target flag ε st l).2.1 =
      l.map fun t => (twinWriteTrack cfg target flag ε t).1 := by
  induction l with
  | nil => intro st; rfl
  | cons t rest ih =>
    intro st
    unfold processTracks
    dsimp only
    rw [ih, List.map_cons]

theorem processTracks_lookup_ne (cfg : TwinCfg) (target : ℚ) (flag : ℕ) (ε : ℚ)
    (l : List TwinTrack) : ∀ (st : StateMap) (k : ℕ), k ∉ l.map (·.key) →
    lookupState (processTracks cfg target flag ε st l).1 k = lookupState st k := by
  induction l with
  | nil => intro st k _; rfl
  | cons t rest ih =>
    intro st k hk
    rw [List.map_cons] at hk
    have hk1 : k ≠ t.key := fun hc => hk (by simp [hc])
    have hk2 : k ∉ rest.map (·.key) := fun hc => hk (List.mem_cons_of_mem _ hc)
    unfold processTracks
    dsimp only
    rw [ih _ k hk2]
    by_cases hdry : cfg.dryRun
    · simp [hdry]
    · simp [hdry, lookup_insertState, hk1]

theorem processTracks_state_all (cfg : TwinCfg) (target : ℚ) (flag : ℕ) (ε : ℚ)
    (l : List TwinTrack) (hdry : cfg.dryRun = false)
    (hnd : (l.map (·.key)).Nodup) : ∀ st : StateMap, ∀ t ∈ l,
    lookupState (processTracks cfg target flag ε st l).1 t.key =
      some ⟨(twinWriteTrack cfg target flag ε t).2.1, flag⟩ := by
  induction l with
  | nil => intro st t ht; exact absurd ht (List.not_mem_nil t)
  | cons hd rest ih =>
    intro st t ht
    rw [List.map_cons, List.nodup_cons] at hnd
    obtain ⟨hnd1, hnd2⟩ := hnd
    unfold processTracks
    dsimp only
    rcases List.mem_cons.mp ht with rfl | htr
    · rw [processTracks_lookup_ne cfg target flag ε rest _ t.key hnd1]
      simp [hdry, lookup_insertState]
    · exact ih hnd2 _ t htr

/-- C6: in a surviving twin cluster the target rating is the mean of the
manual anchors' observed ratings when at least one member lacks a StateRecord
(flag 2), otherwise the mean of all members' ratings (flag 1); every processed
member is the per-member write applied to it, a member differing from its
final rating by more than epsilon is rewritten to the target and counted,
one within epsilon is untouched, and a manual anchor's final rating is its own
current rating, so an anchor is never overwritten by the cluster target. -/
theorem c6_twin_cluster (cfg : TwinCfg) (ε : ℚ) (st : StateMap)
    (cluster : List TwinTrack) (hdry : cfg.dryRun = false) (hε : 0 ≤ ε) :
    ((twinAnchors cluster).isEmpty = false →
      twinTarget cluster = (meanQ ((twinAnchors cluster).map (·.rating)), 2)) ∧
    ((twinAnchors cluster).isEmpty = true →
      twinTarget cluster = (meanQ (cluster.map (·.rating)), 1)) ∧
    (processCluster cfg ε st cluster).2.1 =
      (cluster.map fun t =>
        (twinWriteTrack cfg (twinTarget cluster).1 (twinTarget cluster).2 ε t).1) ∧
    (∀ t : TwinTrack, t.isManual = true →
      twinWriteTrack cfg (twinTarget cluster).1 2 ε t = (t, t.rating, false)) ∧
    (∀ t : TwinTrack, ¬ ((twinTarget cluster).2 = 2 ∧ t.isManual = true) →
      (ε < |t.rating - (twinTarget cluster).1| →
        ((twinWriteTrack cfg (twinTarget cluster).1 (twinTarget cluster).2 ε t).1).rating =
            (twinTarget cluster).1 ∧
          (twinWriteTrack cfg (twinTarget cluster).1 (twinTarget cluster).2 ε t).2.2 =
            true) ∧
      (¬ ε < |t.rating - (twinTarget cluster).1| →
        (twinWriteTrack cfg (twinTarget cluster).1 (twinTarget cluster).2 ε t).1 = t ∧
          (twinWriteTrack cfg (twinTarget cluster).1 (twinTarget cluster).2 ε t).2.2 =
            false)) := by
  refine ⟨?_, ?_, ?_, ?_, ?_⟩
  · intro hne
    unfold twinTarget
    rw [if_neg (by rw [hne]; simp)]
  · intro he
    unfold twinTarget
    rw [if_pos he]
  · unfold processCluster
    exact processTracks_tracks cfg (twinTarget cluster).1 (twinTarget cluster).2 ε
      cluster st
  · intro t hman
    simp [twinWriteTrack, hman, sub_self, abs_zero, not_lt.mpr hε]
  · intro t hcon
    simp only [twinWriteTrack]
    rw [if_neg hcon]
    constructor
    · intro hgap
      rw [if_pos hgap, hdry]
      simp
    · intro hgap
      rw [if_neg hgap]
      exact ⟨rfl, rfl⟩

def twinBaseCfg : TwinCfg := ⟨false, "", ""⟩

def twA : TwinTrack := ⟨10, 7, true, 200, false, []⟩

def twB : TwinTrack := ⟨11, 5, false, 200, false, []⟩

def twC : TwinTrack := ⟨12, 9, false, 201, false, []⟩

/-- C6 witness: a cluster with one manual anchor at 7.0 and inferred members
at 5.0 and 9.0 gets target 7.0 (mean of the anchors alone); the anchor is left
untouched while the two inferred members are rewritten to 7.0. -/
theorem c6_twin_cluster_witness :
    (twinTarget [twA, twB, twC]).1 = 7 ∧
    ((processCluster twinBaseCfg (1/50) [] [twA, twB, twC]).2.1).map (·.rating) =
      [7, 7, 7] := by
  have h := c6_twin_cluster twinBaseCfg (1/50) [] [twA, twB, twC] rfl (by norm_num)
  have htg : twinTarget [twA, twB, twC] = (7, 2) := by
    rw [h.1 (by norm_num [twinAnchors, twA, twB, twC])]
    norm_num [twinAnchors, meanQ, twA, twB, twC]
  refine ⟨by rw [htg], ?_⟩
  rw [h.2.2.1]
  rw [htg]
  norm_num [twinWriteTrack, twinBaseCfg, twA, twB, twC, addMoodIfAbsent]

/-- C7 counterexample: the twin pass upserts a StateRecord for EVERY member of
a processed cluster — here the manual anchor (key 10) gets the record
`{r: 7, t: 2}` although its own rating was left untouched and was never set by
the engine (only one member counts as updated), refuting "never for a
manual-anchor member". -/
theorem c7_counterexample :
    lookupState (processCluster twinBaseCfg (1/50) [(11, ⟨5, 0⟩)] [twA, twB]).1 10 =
      some ⟨7, 2⟩ ∧
    (processCluster twinBaseCfg (1/50) [(11, ⟨5, 0⟩)] [twA, twB]).2.2 = 1 ∧
    ((processCluster twinBaseCfg (1/50) [(11, ⟨5, 0⟩)] [twA, twB]).2.1).map (·.rating) =
      [7, 7] := by
  norm_num [processCluster, twinTarget, twinAnchors, meanQ, processTracks,
    twinWriteTrack, insertState, eraseState, lookupState, twinBaseCfg, twA, twB,
    addMoodIfAbsent]

/-- C7 (amended): after a twin cluster is processed (outside a dry run, keys
distinct), a StateRecord exists for EVERY member — manual anchors included:
the anchor's record carries its own unchanged rating and the cluster flag.
The engine-ownership invariant is thus weakened by the twin pass: a
StateRecord may exist for an item whose rating the engine never wrote. -/
theorem c7_amended_state_records (cfg : TwinCfg) (ε : ℚ) (st : StateMap)
    (cluster : List TwinTrack) (hdry : cfg.dryRun = false)
    (hnd : (cluster.map (·.key)).Nodup) :
    ∀ t ∈ cluster,
      lookupState (processCluster cfg ε st cluster).1 t.key =
        some ⟨(twinWriteTrack cfg (twinTarget cluster).1 (twinTarget cluster).2 ε t).2.1,
              (twinTarget cluster).2⟩ := by
  unfold processCluster
  exact processTracks_state_all cfg (twinTarget cluster).1 (twinTarget cluster).2 ε
    cluster hdry hnd st

/-- C7 amended witness: the manual anchor of the counterexample cluster indeed
ends with the record `{r: 7, t: 2}` while keeping its own rating. -/
theorem c7_amended_witness :
    lookupState (processCluster twinBaseCfg (1/50) [] [twA, twB]).1 10 =
      some ⟨7, 2⟩ := by
  have h := c7_amended_state_records twinBaseCfg (1/50) [] [twA, twB] rfl
    (by norm_num [twA, twB]) twA (by simp)
  have h10 : twA.key = 10 := rfl
  rw [← h10, h]
  have htg : twinTarget [twA, twB] = (7, 2) := by
    norm_num [twinTarget, twinAnchors, meanQ, twA, twB]
  rw [htg]
  norm_num [twinWriteTrack, twinBaseCfg, twA]

theorem mem_ite_cons {α : Type} {P : Prop} [Decidable P] {x c : α} {L : List α}
    (h : c ∈ (if P then x :: L else L)) : c = x ∨ c ∈ L := by
  split at h
  · exact List.mem_cons.mp h
  · exact Or.inr h

theorem verifyClusters_sound (tol : ℚ) (exL : Bool) (L : List (List TwinTrack)) :
    ∀ c ∈ verifyClusters tol exL L, ∃ g ∈ L, (∀ u ∈ g, 0 < u.duration) ∧ c ⊆ g := by
  induction L with
  | nil => intro c hc; simp [verifyClusters] at hc
  | cons cluster rest ih =>
    intro c hc
    unfold verifyClusters at hc
    by_cases hbad :
        (cluster.isEmpty || !(cluster.all fun t => decide (0 < t.duration))) = true
    · rw [if_pos hbad] at hc
      obtain ⟨g, hg, hgp, hsub⟩ := ih c hc
      exact ⟨g, List.mem_cons_of_mem _ hg, hgp, hsub⟩
    · rw [if_neg hbad] at hc
      have hallb : (cluster.all fun t => decide (0 < t.duration)) = true := by
        rw [Bool.or_eq_true, not_or] at hbad
        obtain ⟨-, h2⟩ := hbad
        revert h2
        cases cluster.all fun t => decide (0 < t.duration) <;> simp
      have hall : ∀ u ∈ cluster, 0 < u.duration := fun u hu =>
        of_decide_eq_true (List.all_eq_true.mp hallb u hu)
      dsimp only at hc
      rcases mem_ite_cons hc with rfl | hcr
      · refine ⟨cluster, List.mem_cons_self cluster rest, hall, ?_⟩
        intro a ha
        split at ha
        · exact List.mem_of_mem_filter (List.mem_of_mem_filter ha)
        · exact List.mem_of_mem_filter ha
      · obtain ⟨g, hg, hgp, hsub⟩ := ih c hcr
        exact ⟨g, List.mem_cons_of_mem _ hg, hgp, hsub⟩

/-- C10: the cluster verification stage of `build_twin_clusters` discards a
grouped cluster entirely — before the duration-tolerance filtering — as soon
as one member has a zero (missing) duration, so every track in every final
twin cluster has a known positive duration, and each final cluster descends
from a group all of whose members had positive durations. -/
theorem c10_duration_guard (tol : ℚ) (exL : Bool) (groups : List (List TwinTrack)) :
    ∀ c ∈ buildFinalClusters tol exL groups,
      (∀ t ∈ c, 0 < t.duration) ∧
      ∃ g ∈ groups, (∀ u ∈ g, 0 < u.duration) ∧ c ⊆ g := by
  intro c hc
  obtain ⟨g, hg, hgp, hsub⟩ := verifyClusters_sound tol exL _ c hc
  exact ⟨fun t ht => hgp t (hsub ht), g, (List.mem_filter.mp hg).1, hgp, hsub⟩

def twD : TwinTrack := ⟨13, 6, true, 180, false, []⟩

def twE : TwinTrack := ⟨14, 8, false, 0, false, []⟩

def twF : TwinTrack := ⟨15, 6, true, 200, false, []⟩

def twG : TwinTrack := ⟨16, 8, false, 203, false, []⟩

/-- C10 witness: of two grouped clusters, the one containing a zero-duration
member is discarded whole while the all-positive one survives, and the
theorem yields the positive duration of its members. -/
theorem c10_duration_guard_witness :
    buildFinalClusters 5 false [[twD, twE], [twF, twG]] = [[twF, twG]] ∧
    (∀ t ∈ [twF, twG], 0 < t.duration) := by
  have h32 : |(3:ℚ)/2| ≤ 5 := by
    rw [abs_of_nonneg (by norm_num : (0:ℚ) ≤ 3/2)]
    norm_num
  have hev : buildFinalClusters 5 false [[twD, twE], [twF, twG]] = [[twF, twG]] := by
    norm_num [buildFinalClusters, verifyClusters, medianQ, sortQ, insertSortedQ,
      List.filter_cons, List.filter_nil, decide_eq_true_eq, twD, twE, twF, twG]
    simp [h32]
  refine ⟨hev, ?_⟩
  intro t ht
  have h := c10_duration_guard 5 false [[twD, twE], [twF, twG]] [twF, twG]
    (by rw [hev]; exact List.mem_singleton.mpr rfl)
  exact h.1 t ht

def c3Item : LayerItem := ⟨4, 0, 0, [], none, [], false, false⟩

def c3TwinSt0 : StateMap := [(32, ⟨5, 0⟩)]

def c3TwinA : TwinTrack := ⟨30, 6, true, 200, false, []⟩

def c3TwinB : TwinTrack := ⟨31, 8, true, 200, false, []⟩

def c3TwinC : TwinTrack := ⟨32, 5, false, 200, false, []⟩

/-- The state left by the first twin run over the two-anchor cluster. -/
def c3TwinSt1 : StateMap :=
  (processCluster twinBaseCfg (1/50) c3TwinSt0 [c3TwinA, c3TwinB, c3TwinC]).1

/-- The `track_data` rebuilt for the second twin run: ratings as the first run
left them, `is_manual` recomputed as `key not in state` against the first
run's state, exactly as `build_twin_clusters` does. -/
def c3TwinA2 : TwinTrack := ⟨30, 6, (lookupState c3TwinSt1 30).isNone, 200, false, []⟩

def c3TwinB2 : TwinTrack := ⟨31, 8, (lookupState c3TwinSt1 31).isNone, 200, false, []⟩

def c3TwinC2 : TwinTrack := ⟨32, 7, (lookupState c3TwinSt1 32).isNone, 200, false, []⟩

/-- C3 counterexample, both failure modes of full-run idempotence with no
external change between the runs.  (1) `process_layer`: an item carrying the
StateRecord `{r: 4}` whose rating was externally cleared to unrated before the
first run is hijack-resolved (record deleted, nothing written) by the first
run, and the second run re-infers and WRITES the prior 6 — one write, Update,
not Drift-tolerated or No-op.  (2) the twin pass: a cluster with manual
anchors 6 and 8 and one inferred member (target: anchor mean 7) writes once on
the first run, but records ALL members; the cluster rebuilt against that state
has no manual anchors, so the second run retargets to the all-member mean 7
with flag 1 and rewrites BOTH former anchors — two more writes. -/
theorem c3_counterexample :
    (processLayerRun baseCfg .up 6 (1/50) [(4, ⟨4, 0⟩)] [c3Item] =
      .ok ([], [(c3Item, .hijacked)]) ∧
    processLayerRun baseCfg .up 6 (1/50) [] [c3Item] =
      .ok ([(4, ⟨6, 0⟩)], [({ c3Item with userRating := 6 }, .updated)]) ∧
    updatedCount [(({ c3Item with userRating := 6 } : LayerItem), Outcome.updated)] =
      1) ∧
    ((processCluster twinBaseCfg (1/50) c3TwinSt0 [c3TwinA, c3TwinB, c3TwinC]).2.2 =
      1 ∧
    ((processCluster twinBaseCfg (1/50) c3TwinSt0
      [c3TwinA, c3TwinB, c3TwinC]).2.1).map (·.rating) = [6, 8, 7] ∧
    c3TwinA2.isManual = false ∧ c3TwinB2.isManual = false ∧
      c3TwinC2.isManual = false ∧
    twinAnchors [c3TwinA2, c3TwinB2, c3TwinC2] = [] ∧
    twinTarget [c3TwinA2, c3TwinB2, c3TwinC2] = (7, 1) ∧
    (processCluster twinBaseCfg (1/50) c3TwinSt1 [c3TwinA2, c3TwinB2, c3TwinC2]).2.2 =
      2 ∧
    ((processCluster twinBaseCfg (1/50) c3TwinSt1
      [c3TwinA2, c3TwinB2, c3TwinC2]).2.1).map (·.rating) = [7, 7, 7]) := by
  have hstep1 : processLayerStep baseCfg .up 6 (1/50) [(4, ⟨4, 0⟩)] c3Item =
      .ok ([], c3Item, .hijacked) := by
    rw [processLayerStep_hijack baseCfg .up 6 (1/50) [(4, ⟨4, 0⟩)] c3Item ⟨4, 0⟩ rfl
      (by norm_num [c3Item]) rfl]
    norm_num [eraseState, hijackItem, baseCfg, c3Item]
  have hci : computeInferred baseCfg .up 6 [] c3Item = .ok (some 6) := by
    norm_num [computeInferred, contributingChildren, manualChildren, informedPrior,
      criticComponent, effConfidence, baseCfg, exRulesOff, c3Item]
  have hstep2 : processLayerStep baseCfg .up 6 (1/50) [] c3Item =
      .ok ([(4, ⟨6, 0⟩)], { c3Item with userRating := 6 }, .updated) := by
    rw [processLayerStep_calc_none baseCfg .up 6 (1/50) [] c3Item rfl
      (by norm_num [c3Item]), hci]
    dsimp only
    rw [driftOrUpdate_write baseCfg (1/50) [] c3Item none 6 (by norm_num) rfl
      (by simp) (Or.inl rfl)]
    norm_num [insertState, eraseState, updateItem, baseCfg, c3Item]
  have hst1 : c3TwinSt1 = [(32, ⟨7, 2⟩), (31, ⟨8, 2⟩), (30, ⟨6, 2⟩)] := by
    norm_num [c3TwinSt1, processCluster, twinTarget, twinAnchors, meanQ,
      processTracks, twinWriteTrack, insertState, eraseState, twinBaseCfg,
      c3TwinSt0, c3TwinA, c3TwinB, c3TwinC, addMoodIfAbsent]
  have hA2 : c3TwinA2 = ⟨30, 6, false, 200, false, []⟩ := by
    unfold c3TwinA2
    rw [hst1]
    rfl
  have hB2 : c3TwinB2 = ⟨31, 8, false, 200, false, []⟩ := by
    unfold c3TwinB2
    rw [hst1]
    rfl
  have hC2 : c3TwinC2 = ⟨32, 7, false, 200, false, []⟩ := by
    unfold c3TwinC2
    rw [hst1]
    rfl
  refine ⟨⟨?_, ?_, by simp [updatedCount]⟩, ?_, ?_, by rw [hA2], by rw [hB2],
    by rw [hC2], ?_, ?_, ?_, ?_⟩
  · unfold processLayerRun
    rw [hstep1]
    dsimp only
    unfold processLayerRun
    rfl
  · unfold processLayerRun
    rw [hstep2]
    dsimp only
    unfold processLayerRun
    rfl
  · norm_num [processCluster, twinTarget, twinAnchors, meanQ, processTracks,
      twinWriteTrack, insertState, eraseState, twinBaseCfg, c3TwinSt0,
      c3TwinA, c3TwinB, c3TwinC, addMoodIfAbsent]
  · norm_num [processCluster, twinTarget, twinAnchors, meanQ, processTracks,
      twinWriteTrack, insertState, eraseState, twinBaseCfg, c3TwinSt0,
      c3TwinA, c3TwinB, c3TwinC, addMoodIfAbsent]
  · rw [hA2, hB2, hC2]
    norm_num [twinAnchors, List.filter_cons, List.filter_nil]
  · rw [hA2, hB2, hC2]
    norm_num [twinTarget, twinAnchors, meanQ, List.filter_cons, List.filter_nil]
  · rw [hA2, hB2, hC2]
    norm_num [processCluster, twinTarget, twinAnchors, meanQ, processTracks,
      twinWriteTrack, insertState, eraseState, twinBaseCfg, addMoodIfAbsent]
  · rw [hA2, hB2, hC2]
    norm_num [processCluster, twinTarget, twinAnchors, meanQ, processTracks,
      twinWriteTrack, insertState, eraseState, twinBaseCfg, addMoodIfAbsent]

/-- C3 (amended): idempotence holds per `process_layer` pass but not for the
full run.  (1) Re-running a `process_layer` pass on its own output with no
external change yields zero writes — every item lands in Drift-tolerated,
No-op, or the manual-rating skip — provided each stale StateRecord sits on an
item with positive observed rating (an engine-owned rating externally cleared
to unrated is re-inferred and written, see the counterexample).  (2) The twin
pass is NOT idempotent: it records every processed member in the state, so a
cluster rebuilt against that state (its `is_manual` recomputed as
`key not in state`, as `build_twin_clusters` does) has no manual anchors, its
target becomes the mean of ALL members' ratings with the
twin-inferred-consensus flag, and every member — former manual anchors
included — whose rating differs from that mean by more than epsilon is
rewritten to it and counted as updated on the second run. -/
theorem c3_full_run_idempotence (cfg : Config) (dir : Direction) (gm ε : ℚ)
    (tw : TwinCfg) (εt : ℚ)
    (hdry : cfg.dryRun = false) (hε : 1/100 < ε) (htdry : tw.dryRun = false) :
    (∀ (items : List LayerItem) (S S1 : StateMap) (res : List (LayerItem × Outcome)),
      (items.map (·.key)).Nodup →
      relKeysDisjoint items →
      staleOnlyRated S items →
      processLayerRun cfg dir gm ε S items = .ok (S1, res) →
      ∃ res2, processLayerRun cfg dir gm ε S1 (res.map (·.1)) = .ok (S1, res2) ∧
        res2.map (·.1) = res.map (·.1) ∧
        (∀ p ∈ res2, p.2 = Outcome.driftSkip ∨ p.2 = Outcome.noop ∨
          p.2 = Outcome.manualSkip) ∧
        updatedCount res2 = 0) ∧
    (∀ (st : StateMap) (cluster : List TwinTrack),
      (cluster.map (·.key)).Nodup →
      (∀ t ∈ cluster,
        (lookupState (processCluster tw εt st cluster).1 t.key).isSome = true) ∧
      (∀ cluster2 : List TwinTrack,
        (∀ t2 ∈ cluster2, ∃ t ∈ cluster, t2.key = t.key ∧
          t2.isManual =
            (lookupState (processCluster tw εt st cluster).1 t2.key).isNone) →
        twinAnchors cluster2 = [] ∧
        twinTarget cluster2 = (meanQ (cluster2.map (·.rating)), 1) ∧
        (∀ t2 ∈ cluster2, εt < |t2.rating - meanQ (cluster2.map (·.rating))| →
          (twinWriteTrack tw (meanQ (cluster2.map (·.rating))) 1 εt t2).2.2 = true ∧
          ((twinWriteTrack tw (meanQ (cluster2.map (·.rating))) 1 εt t2).1).rating =
            meanQ (cluster2.map (·.rating))))) := by
  constructor
  · exact processLayerRun_second_run cfg dir gm ε hdry hε
  · intro st cluster hnd
    have hsome : ∀ t ∈ cluster,
        (lookupState (processCluster tw εt st cluster).1 t.key).isSome = true := by
      intro t ht
      unfold processCluster
      rw [processTracks_state_all tw (twinTarget cluster).1 (twinTarget cluster).2 εt
        cluster htdry hnd st t ht]
      rfl
    refine ⟨hsome, ?_⟩
    intro cluster2 hre
    have hman : ∀ t2 ∈ cluster2, t2.isManual = false := by
      intro t2 ht2
      obtain ⟨t, ht, hkey, hm⟩ := hre t2 ht2
      rw [hm, hkey]
      have hs := hsome t ht
      cases hx : lookupState (processCluster tw εt st cluster).1 t.key with
      | none => rw [hx] at hs; exact absurd hs (by simp)
      | some v => rfl
    have hanch : twinAnchors cluster2 = [] := by
      unfold twinAnchors
      rw [List.filter_eq_nil_iff]
      intro t2 ht2
      rw [hman t2 ht2]
      simp
    have htgt : twinTarget cluster2 = (meanQ (cluster2.map (·.rating)), 1) := by
      simp only [twinTarget]
      rw [hanch]
      rfl
    refine ⟨hanch, htgt, ?_⟩
    intro t2 ht2 hgap
    constructor
    · simp only [twinWriteTrack]
      rw [if_neg (show ¬ ((1:ℕ) = 2 ∧ t2.isManual = true) from
        fun hcon => absurd hcon.1 (by norm_num)), if_pos hgap, htdry]
      simp
    · simp only [twinWriteTrack]
      rw [if_neg (show ¬ ((1:ℕ) = 2 ∧ t2.isManual = true) from
        fun hcon => absurd hcon.1 (by norm_num)), if_pos hgap, htdry]
      simp

def c3WChild : Child := ⟨120, 6, true, some 200000, "whiskey"⟩

def c3W : LayerItem := ⟨20, 0, 0, [c3WChild], none, [], false, false⟩

/-- C3 witness.  Part (1) at an unrated album with one manually rated track:
written (6) on the first run, zero writes when the pass re-runs on its own
output.  Part (2) at the two-anchor twin cluster: the cluster rebuilt against
the first run's state has no manual anchors, and the former anchor rated 6
(one full point off the all-member mean 7) is rewritten to 7 and counted. -/
theorem c3_full_run_idempotence_witness :
    (∃ res2, processLayerRun baseCfg .up 6 (1/50) [(20, ⟨6, 0⟩)]
        [{ c3W with userRating := 6 }] = .ok ([(20, ⟨6, 0⟩)], res2) ∧
      res2.map (·.1) = [{ c3W with userRating := 6 }] ∧
      updatedCount res2 = 0) ∧
    twinAnchors [c3TwinA2, c3TwinB2, c3TwinC2] = [] ∧
    (twinWriteTrack twinBaseCfg 7 1 (1/50) c3TwinA2).2.2 = true ∧
    ((twinWriteTrack twinBaseCfg 7 1 (1/50) c3TwinA2).1).rating = 7 := by
  obtain ⟨hA, hB⟩ := c3_full_run_idempotence baseCfg .up 6 (1/50) twinBaseCfg (1/50)
    rfl (by norm_num) rfl
  have hci : computeInferred baseCfg .up 6 [] c3W = .ok (some 6) := by
    norm_num [computeInferred, contributingChildren, manualChildren, informedPrior,
      criticComponent, effConfidence, baseCfg, exRulesOff, c3W, c3WChild, lookupState]
  have hstep : processLayerStep baseCfg .up 6 (1/50) [] c3W =
      .ok ([(20, ⟨6, 0⟩)], { c3W with userRating := 6 }, .updated) := by
    rw [processLayerStep_calc_none baseCfg .up 6 (1/50) [] c3W rfl
      (by norm_num [c3W]), hci]
    dsimp only
    rw [driftOrUpdate_write baseCfg (1/50) [] c3W none 6 (by norm_num) rfl
      (by simp) (Or.inl rfl)]
    norm_num [insertState, eraseState, updateItem, baseCfg, c3W]
  have hrun1 : processLayerRun baseCfg .up 6 (1/50) [] [c3W] =
      .ok ([(20, ⟨6, 0⟩)], [({ c3W with userRating := 6 }, .updated)]) := by
    unfold processLayerRun
    rw [hstep]
    dsimp only
    unfold processLayerRun
    rfl
  have hpart1 : ∃ res2, processLayerRun baseCfg .up 6 (1/50) [(20, ⟨6, 0⟩)]
      [{ c3W with userRating := 6 }] = .ok ([(20, ⟨6, 0⟩)], res2) ∧
      res2.map (·.1) = [{ c3W with userRating := 6 }] ∧
      updatedCount res2 = 0 := by
    obtain ⟨res2, h2, hm, -, hcnt⟩ := hA [c3W] [] [(20, ⟨6, 0⟩)]
      [({ c3W with userRating := 6 }, .updated)]
      (by simp)
      (by
        intro i hi
        rw [List.mem_singleton] at hi
        subst hi
        refine ⟨?_, ?_⟩
        · intro c hc
          rw [show c3W.children = [c3WChild] from rfl, List.mem_singleton] at hc
          subst hc
          simp [c3W, c3WChild]
        · intro p hp
          exact absurd hp (by simp [c3W]))
      (by
        intro i hi rec0 hrec
        simp [lookupState] at hrec)
      hrun1
    exact ⟨res2, by simpa using h2, by simpa using hm, hcnt⟩
  obtain ⟨-, hB2⟩ := hB c3TwinSt0 [c3TwinA, c3TwinB, c3TwinC]
    (by norm_num [c3TwinA, c3TwinB, c3TwinC])
  obtain ⟨hanch, htgt, hwr⟩ := hB2 [c3TwinA2, c3TwinB2, c3TwinC2]
    (by
      intro t2 ht2
      rcases List.mem_cons.mp ht2 with rfl | ht2'
      · exact ⟨c3TwinA, by simp, rfl, rfl⟩
      rcases List.mem_cons.mp ht2' with rfl | ht2''
      · exact ⟨c3TwinB, by simp, rfl, rfl⟩
      rcases List.mem_cons.mp ht2'' with rfl | ht2x
      · exact ⟨c3TwinC, by simp, rfl, rfl⟩
      · exact absurd ht2x (List.not_mem_nil t2))
  have hmean : meanQ ([c3TwinA2, c3TwinB2, c3TwinC2].map (·.rating)) = 7 := by
    norm_num [meanQ, c3TwinA2, c3TwinB2, c3TwinC2]
  have hw := hwr c3TwinA2 (by simp)
    (by
      rw [hmean]
      have hr : c3TwinA2.rating = 6 := rfl
      rw [hr]
      rw [show |(6:ℚ) - 7| = 1 by
        rw [abs_of_nonpos (by norm_num : (6:ℚ) - 7 ≤ 0)]; norm_num]
      norm_num)
  rw [hmean] at hw
  exact ⟨hpart1, hanch, hw.1, hw.2⟩
